import Mathlib

/-!
Shallow embedding of the content-based book-recommendation engine
(`verify.py`): JSON-like values, the scalarizer (`to_text` / `to_list`),
facet extraction (`extract_year`, `extract_pages`), the recency scorer,
the keyword picker, record normalization (`build_records`), the
weight-renormalizing ranker (`argsort`-based ordering, self-exclusion,
truncation), and the per-facet term-weighting fit step with its
empty-vocabulary failure.

Numeric conventions: Python floats are modelled as rationals (`ℚ`);
Python ints as `Int`/`Nat`.  Character classes of the regular
expressions (`\d`, `\s`, `\w`) are modelled over their ASCII ranges,
which is what every input exercised by the specification uses.
-/

mutual
/-- JSON-like values as handled by the program: `None`, strings, numbers
(modelled as integers; no claim depends on float-valued fields),
booleans, arrays and objects.  Arrays and objects are given by bespoke
mutually-inductive list types so that all recursions below are
structural and kernel-reducible. -/
inductive Json where
  | null : Json
  | str (s : String) : Json
  | num (n : Int) : Json
  | bool (b : Bool) : Json
  | arr (xs : JsonList) : Json
  | obj (kvs : JsonKVs) : Json
inductive JsonList where
  | nil : JsonList
  | cons (x : Json) (xs : JsonList) : JsonList
inductive JsonKVs where
  | nil : JsonKVs
  | cons (k : String) (v : Json) (kvs : JsonKVs) : JsonKVs
end

def JsonList.toList : JsonList → List Json
  | .nil => []
  | .cons x xs => x :: xs.toList

def JsonList.isEmpty : JsonList → Bool
  | .nil => true
  | .cons _ _ => false

def JsonKVs.values : JsonKVs → List Json
  | .nil => []
  | .cons _ v kvs => v :: kvs.values

/-- First-match key lookup (Python dicts have unique keys). -/
def JsonKVs.lookup : JsonKVs → String → Option Json
  | .nil, _ => none
  | .cons k v kvs, key => if k = key then some v else kvs.lookup key

/-- `book.get(key)`: `None` when the key is absent.  (Python would raise
`AttributeError` on a non-mapping receiver; the program only calls
`.get` on objects, and no claim exercises the non-mapping case, which is
modelled as `null`.) -/
def Json.get (j : Json) (key : String) : Json :=
  match j with
  | .obj kvs => (kvs.lookup key).getD .null
  | _ => .null

/-- `data.get(key, default)`. -/
def Json.getD (j : Json) (key : String) (dflt : Json) : Json :=
  match j with
  | .obj kvs => (kvs.lookup key).getD dflt
  | _ => dflt

mutual
/-- `to_text(v)` from `verify.py`: `None` → `""`; strings unchanged;
numbers/booleans via `str`; lists and dict values space-joined
recursively. -/
def to_text : Json → String
  | .null => ""
  | .str s => s
  | .num n => toString n
  | .bool b => if b then "True" else "False"
  | .arr xs => String.intercalate " " (textsOfList xs)
  | .obj kvs => String.intercalate " " (textsOfKVs kvs)
def textsOfList : JsonList → List String
  | .nil => []
  | .cons x xs => to_text x :: textsOfList xs
def textsOfKVs : JsonKVs → List String
  | .nil => []
  | .cons _ v kvs => to_text v :: textsOfKVs kvs
end

/-- Python whitespace for `str.strip()` (ASCII model). -/
def isSpaceChar (c : Char) : Bool :=
  c = ' ' || c = '\t' || c = '\n' || c = '\r' || c = '\x0b' || c = '\x0c'

/-- `s.strip()`: drop leading and trailing whitespace. -/
def pyStrip (s : String) : String :=
  String.mk (((s.data.dropWhile isSpaceChar).reverse.dropWhile isSpaceChar).reverse)

/-- `to_list(v)` from `verify.py`: `None` → `[]`; a list is flattened one
level, each element scalarized to a stripped string, empties dropped; a
dict contributes its stripped value texts; a string becomes a singleton
if nonempty after stripping; anything else goes through `to_text`. -/
def to_list : Json → List String
  | .null => []
  | .arr xs =>
    (xs.toList.map fun x =>
      match x with
      | .str s => pyStrip s
      | .obj kvs => pyStrip (String.intercalate " " (textsOfKVs kvs))
      | x => pyStrip (to_text x)).filter (fun s => s ≠ "")
  | .obj kvs =>
    (kvs.values.map (fun x => pyStrip (to_text x))).filter (fun s => s ≠ "")
  | .str s => if pyStrip s = "" then [] else [pyStrip s]
  | v => if pyStrip (to_text v) = "" then [] else [pyStrip (to_text v)]

/-- `\d` (ASCII model): code points 48–57. -/
def isDig (c : Char) : Bool := decide (48 ≤ c.toNat) && decide (c.toNat ≤ 57)

/-- `\w` (ASCII model): letters, digits, underscore. -/
def isWordChar (c : Char) : Bool :=
  isDig c || (decide (65 ≤ c.toNat) && decide (c.toNat ≤ 90)) ||
    (decide (97 ≤ c.toNat) && decide (c.toNat ≤ 122)) || c = '_'

def digitVal (c : Char) : Nat := c.toNat - 48

/-- `int` of a nonempty ASCII digit string. -/
def digitsToNat (ds : List Char) : Nat :=
  ds.foldl (fun acc c => 10 * acc + digitVal c) 0

/-- `YEAR_RE.search`: leftmost substring matching `(19|20)\d{2}`,
returned as an integer (the `int(...)` conversion cannot fail on a
4-digit ASCII match). -/
def yearSearch : List Char → Option Nat
  | [] => none
  | c1 :: rest =>
    match rest with
    | c2 :: c3 :: c4 :: _ =>
      if ((c1 = '1' && c2 = '9') || (c1 = '2' && c2 = '0')) && isDig c3 && isDig c4 then
        some (1000 * digitVal c1 + 100 * digitVal c2 + 10 * digitVal c3 + digitVal c4)
      else yearSearch rest
    | _ => none

/-- `extract_year(book)`: first `YEAR_RE` match over the scalarized
texts of `issuedYear`, `issued`, `datePublished`, `publicationDate`, in
that order. -/
def extract_year (book : Json) : Option Nat :=
  match yearSearch (to_text (book.get "issuedYear")).data with
  | some y => some y
  | none =>
    match yearSearch (to_text (book.get "issued")).data with
    | some y => some y
    | none =>
      match yearSearch (to_text (book.get "datePublished")).data with
      | some y => some y
      | none => yearSearch (to_text (book.get "publicationDate")).data

/-- One attempt of `PAGES_RE` (`(\d+)\s*p\b`, case-insensitive) at the
head of the character list: a maximal digit run, optional whitespace,
`p`/`P`, then a word boundary.  Returns the matched integer and the
remainder after the match.  (Greedy `\d+`/`\s*` need no backtracking
here: giving back a digit leaves a digit where `\s*p` must match, and
giving back whitespace leaves whitespace where `p` must match.) -/
def matchPagesAt (cs : List Char) : Option (Nat × List Char) :=
  let ds := cs.takeWhile isDig
  if ds.isEmpty then none
  else
    match (cs.dropWhile isDig).dropWhile isSpaceChar with
    | c :: rest =>
      if (c = 'p' || c = 'P') &&
          (match rest with | [] => true | d :: _ => !isWordChar d) then
        some (digitsToNat ds, rest)
      else none
    | [] => none

/-- `PAGES_RE.finditer`: scan left to right, resuming after each match.
The fuel argument is the length of the scanned text; every step consumes
at least one character, so it never runs out before the scan ends. -/
def findPagesAux : Nat → List Char → List Nat
  | 0, _ => []
  | _ + 1, [] => []
  | fuel + 1, c :: cs =>
    match matchPagesAt (c :: cs) with
    | some (n, rest) => n :: findPagesAux fuel rest
    | none => findPagesAux fuel cs

def findPages (cs : List Char) : List Nat := findPagesAux cs.length cs

/-- All integers matched by `PAGES_RE` across the scalarized `extent`
tokens. -/
def pagesFound (book : Json) : List Nat :=
  (to_list (book.get "extent")).flatMap (fun token => findPages token.data)

/-- `extract_pages(book)`: maximum of the collected page numbers, absent
when none matched. -/
def extract_pages (book : Json) : Option Nat :=
  match pagesFound book with
  | [] => none
  | x :: xs => some (xs.foldl max x)

/-- `recency_weight(year, now_year)`: absent year → `0.0`; otherwise
`d = max(now_year - year, 0)` and `(5 - d) / 5.0` when `d ≤ 5`, else
`0.0`.  (The reference year is a required argument here; the Python
default fills in the current calendar year.) -/
def recency_weight (year : Option Int) (now_year : Int) : ℚ :=
  match year with
  | none => 0
  | some y =>
    let d : Int := max (now_year - y) 0
    if d ≤ 5 then ((5 : ℚ) - (d : ℚ)) / 5 else 0

/-- The set of stripped, nonempty picked keywords
(`set([k.strip() for k in (picked_keywords or []) if k.strip()])`). -/
def pickedSetOf (picked : List String) : List String :=
  (picked.map pyStrip).filter (fun k => k ≠ "")

/-- The fill loop of `pick_related_keywords`: walk `subs`, append each
entry not already chosen, and stop as soon as `top_n` entries are
held. -/
def fillLoop : List String → List String → Nat → List String
  | [], result, _ => result
  | s :: rest, result, top_n =>
    if s ∈ result then
      if top_n ≤ result.length then result else fillLoop rest result top_n
    else
      if top_n ≤ (result ++ [s]).length then result ++ [s]
      else fillLoop rest (result ++ [s]) top_n

/-- `pick_related_keywords(subjects, picked_keywords, top_n)`: drop
falsy subjects, take up to `top_n` subjects that lie in the picked set,
then fill from the remaining subjects. -/
def pick_related_keywords (subjects picked : List String) (top_n : Nat) : List String :=
  let subs := subjects.filter (fun s => s ≠ "")
  if subs.isEmpty then []
  else
    let pset := pickedSetOf picked
    let inter := subs.filter (fun s => decide (s ∈ pset))
    let result := inter.take top_n
    let result := if result.length < top_n then fillLoop subs result top_n else result
    result.take top_n

/-- A normalized record as assembled by `build_records`. -/
structure NormalizedRecord where
  title : String
  subjects : List String
  desc : String
  creator : String
  publisher : String
  year : Option Nat
  pages : Option Nat
  raw : Json

/-- One record of the `@graph` collection, normalized. -/
def buildRecord (bk : Json) : NormalizedRecord :=
  { title := if to_text (bk.get "title") = "" then "(제목 없음)" else to_text (bk.get "title")
    subjects := to_list (bk.get "subject")
    desc := to_text (bk.get "description")
    creator := to_text (bk.get "creator")
    publisher := to_text (bk.get "publisher")
    year := extract_year bk
    pages := extract_pages bk
    raw := bk }

/-- `build_records(data)`: `[]` unless the root is a mapping whose
`@graph` entry is a nonempty list; otherwise one normalized record per
list element. -/
def build_records (data : Json) : List NormalizedRecord :=
  match data with
  | .obj kvs =>
    match (kvs.lookup "@graph").getD (Json.arr .nil) with
    | .arr books => if books.isEmpty then [] else books.toList.map buildRecord
    | _ => []
  | _ => []

/-- Claim-side contract for `normalize`, written from the specification
for comparison with `build_records`: `MalformedInput` when the root is
not object-shaped; the empty sequence when the graph key is present but
holds an empty collection. -/
def normalize_claimed (data : Json) : Except String (List NormalizedRecord) :=
  match data with
  | .obj kvs =>
    match (kvs.lookup "@graph").getD (Json.arr .nil) with
    | .arr books => .ok (if books.isEmpty then [] else books.toList.map buildRecord)
    | _ => .ok []
  | _ => .error "MalformedInput"

/-- Score of candidate `i` in a final-score vector (numpy indexing;
out-of-range reads do not occur in the program). -/
def scoreAt (f : List ℚ) (i : Nat) : ℚ := f.getD i 0

/-- Ascending by score, ties by original position: the total order a
*stable* ascending argsort realizes. -/
def argsortLE (f : List ℚ) (i j : Nat) : Prop :=
  scoreAt f i < scoreAt f j ∨ (scoreAt f i = scoreAt f j ∧ i ≤ j)

instance (f : List ℚ) : DecidableRel (argsortLE f) := fun i j => by
  unfold argsortLE; exact inferInstance

/-- `final.argsort()` in the regime where its result is fully
determined: numpy's default sort is an introsort whose partitions below
the small-sort cutoff (16 elements) are finished by plain insertion
sort, which is stable, so on arrays shorter than that cutoff
`final.argsort()` is exactly this stable ascending argsort.  On longer
arrays the introsort is unstable and the order of tied scores is
implementation-defined; only the `IsNpArgsort` contract below is
guaranteed there, and no tie order is modelled. -/
def argsortSmall (f : List ℚ) : List Nat :=
  List.insertionSort (argsortLE f) (List.range f.length)

/-- The contract `final.argsort()` satisfies at *every* input length: a
permutation of all candidate indices, ascending by score.  Nothing is
said about the relative order of equal scores (numpy's default sort is
unstable above its small-sort cutoff). -/
def IsNpArgsort (f : List ℚ) (p : List Nat) : Prop :=
  p.Perm (List.range f.length) ∧ p.Pairwise (fun i j => scoreAt f i ≤ scoreAt f j)

/-- `final.argsort()[::-1]`: the ranking order, descending.  Executable
via the small-array model `argsortSmall`; every theorem below that
involves it either holds for any `IsNpArgsort`-satisfying argsort or is
evaluated on below-cutoff inputs, where the model is exact. -/
def order (f : List ℚ) : List Nat := (argsortSmall f).reverse

/-- Record-to-record results: `[i for i in order if i != idx][:top_n]`. -/
def recordRecs (f : List ℚ) (idx top_n : Nat) : List Nat :=
  ((order f).filter (fun i => i ≠ idx)).take top_n

/-- Keyword-mode results: `final.argsort()[::-1][:top_n]`. -/
def keywordOrder (f : List ℚ) (top_n : Nat) : List Nat := (order f).take top_n

/-- The four per-facet content weights. -/
structure Weights where
  subj : ℚ
  desc : ℚ
  auth : ℚ
  pub : ℚ
deriving DecidableEq

/-- The fixed default profile substituted for an all-zero input. -/
def defaultWeights : Weights := ⟨45/100, 30/100, 15/100, 10/100⟩

/-- The renormalization block: substitute the default profile when the
supplied weights sum to zero, then divide each weight by the sum. -/
def normalizeWeights (w : Weights) : Weights :=
  let s := w.subj + w.desc + w.auth + w.pub
  let w1 := if s = 0 then defaultWeights else w
  let s1 := if s = 0 then 1 else s
  ⟨w1.subj / s1, w1.desc / s1, w1.auth / s1, w1.pub / s1⟩

/-- `combine_content_score`: elementwise weighted sum of the four
per-facet similarity vectors. -/
def combine_content_score (w : Weights) : List ℚ → List ℚ → List ℚ → List ℚ → List ℚ
  | a :: as, b :: bs, c :: cs, d :: ds =>
    (w.subj * a + w.desc * b + w.auth * c + w.pub * d) ::
      combine_content_score w as bs cs ds
  | _, _, _, _ => []

/-- `final_score`: blend of content score and recency vector. -/
def final_score (w_recency : ℚ) (content rec_vec : List ℚ) : List ℚ :=
  List.zipWith (fun c r => (1 - w_recency) * c + w_recency * r) content rec_vec

/-- The record-to-record ranking pipeline downstream of the similarity
computation, as a function of the supplied weight profile. -/
def rankRecord (w : Weights) (w_recency : ℚ) (ss sd sa sp rec_vec : List ℚ)
    (idx top_n : Nat) : List Nat :=
  recordRecs (final_score w_recency
    (combine_content_score (normalizeWeights w) ss sd sa sp) rec_vec) idx top_n

/-- The keyword-mode ranking pipeline downstream of the similarity
computation. -/
def rankKeyword (w : Weights) (w_recency : ℚ) (ss sd sa sp rec_vec : List ℚ)
    (top_n : Nat) : List Nat :=
  keywordOrder (final_score w_recency
    (combine_content_score (normalizeWeights w) ss sd sa sp) rec_vec) top_n

/-- sklearn's default tokenizer (`token_pattern=r"(?u)\b\w\w+\b"` on the
lowercased text): maximal word-character runs of length at least 2.  The
accumulator carries the current run reversed. -/
def tokenizeAux : List Char → List Char → List (List Char)
  | [], cur => if 2 ≤ cur.length then [cur.reverse] else []
  | c :: cs, cur =>
    if isWordChar c then tokenizeAux cs (c :: cur)
    else (if 2 ≤ cur.length then [cur.reverse] else []) ++ tokenizeAux cs []

def sklearnTokens (s : String) : List String :=
  (tokenizeAux (s.data.map Char.toLower) []).map String.mk

/-- The fitted vocabulary: all tokens of all documents, deduplicated. -/
def vocabulary (docs : List String) : List String :=
  (docs.flatMap sklearnTokens).dedup

/-- The fitted representation of one facet: its vocabulary together with
the token list of each document.  (The tf-idf weight numerics are not
modelled: every ranking claim quantifies over the resulting similarity
vectors, and no claim depends on the weight values.) -/
abbrev FittedFacet := List String × List (List String)

/-- `TfidfVectorizer().fit_transform(docs)`: raises `ValueError` when the
vocabulary is empty, which is the case exactly when no document yields a
token. -/
def fit_transform (docs : List String) : Except String FittedFacet :=
  let vocab := vocabulary docs
  if vocab.isEmpty then .error "empty vocabulary" else .ok (vocab, docs.map sklearnTokens)

/-- Lines 244–247 of `verify.py`: the four facet fits, executed in
order, with no exception handler — a failure in any of them propagates
and aborts the whole pipeline. -/
def buildIndexes (subj_texts desc_texts auth_texts pub_texts : List String) :
    Except String (FittedFacet × FittedFacet × FittedFacet × FittedFacet) :=
  match fit_transform subj_texts with
  | .error e => .error e
  | .ok xs =>
    match fit_transform desc_texts with
    | .error e => .error e
    | .ok xd =>
      match fit_transform auth_texts with
      | .error e => .error e
      | .ok xa =>
        match fit_transform pub_texts with
        | .error e => .error e
        | .ok xp => .ok (xs, xd, xa, xp)

/-- Arbitrarily deep array nesting, for the termination claims. -/
def nestArr : Nat → Json
  | 0 => .arr .nil
  | n + 1 => .arr (.cons (nestArr n) .nil)

/-- Arbitrarily deep object nesting. -/
def nestObj : Nat → Json
  | 0 => .obj .nil
  | n + 1 => .obj (.cons "k" (nestObj n) .nil)

/-! ## Claim theorems -/

lemma isDig_bounds {c : Char} (h : isDig c = true) : 48 ≤ c.toNat ∧ c.toNat ≤ 57 := by
  simpa [isDig] using h

lemma yearSearch_range (cs : List Char) : ∀ y, yearSearch cs = some y → 1900 ≤ y ∧ y ≤ 2099 := by
  induction cs with
  | nil => intro y h; simp [yearSearch] at h
  | cons c1 rest ih =>
    intro y h
    rcases rest with _ | ⟨c2, _ | ⟨c3, _ | ⟨c4, tail⟩⟩⟩
    · simp [yearSearch] at h
    · simp [yearSearch] at h
    · simp [yearSearch] at h
    · rw [yearSearch] at h
      split at h
      · rename_i hcond
        injection h with hy
        subst hy
        simp only [Bool.and_eq_true, Bool.or_eq_true, decide_eq_true_eq] at hcond
        obtain ⟨h12, hd4⟩ := hcond
        obtain ⟨h12, hd3⟩ := h12
        have h3 := isDig_bounds hd3
        have h4 := isDig_bounds hd4
        rcases h12 with ⟨e1, e2⟩ | ⟨e1, e2⟩ <;> subst e1 <;> subst e2 <;>
          simp only [digitVal, show ('1' : Char).toNat = 49 from rfl,
            show ('9' : Char).toNat = 57 from rfl, show ('2' : Char).toNat = 50 from rfl,
            show ('0' : Char).toNat = 48 from rfl] <;> omega
      · exact ih y h

/-- C10: whenever `extract_year` returns a value it lies between 1900 and
2099 inclusive — the matched 4-digit substring begins with 19 or 20, and
no further range check exists or is needed. -/
theorem C10_extract_year_range (book : Json) (y : Nat)
    (h : extract_year book = some y) : 1900 ≤ y ∧ y ≤ 2099 := by
  unfold extract_year at h
  split at h
  · rename_i heq
    cases h
    exact yearSearch_range _ _ heq
  · split at h
    · rename_i heq
      cases h
      exact yearSearch_range _ _ heq
    · split at h
      · rename_i heq
        cases h
        exact yearSearch_range _ _ heq
      · exact yearSearch_range _ _ h

/-- Witness for C10 at the specification's own example: `issued` text
`民國77[1988]` yields 1988, which lies in the range. -/
theorem C10_extract_year_range_witness :
    1900 ≤ 1988 ∧ 1988 ≤ 2099 :=
  C10_extract_year_range
    (Json.obj (.cons "issued" (.str "民國77[1988]") .nil)) 1988 (by decide)

/-- C7: `recency_weight` is `0` for an absent year; with
`d = max(reference_year - year, 0)` it is `(5 - d) / 5` when `d ≤ 5` and
`0` when `d > 5`; it always lies in `[0, 1]`, is `1` at `d = 0` (future
years included) and `0` at `d = 5`. -/
theorem C7_recency_weight (y now_year d : Int) (hd : d = max (now_year - y) 0) :
    recency_weight none now_year = 0 ∧
    (d ≤ 5 → recency_weight (some y) now_year = ((5 : ℚ) - (d : ℚ)) / 5) ∧
    (5 < d → recency_weight (some y) now_year = 0) ∧
    0 ≤ recency_weight (some y) now_year ∧
    recency_weight (some y) now_year ≤ 1 ∧
    (d = 0 → recency_weight (some y) now_year = 1) ∧
    (d = 5 → recency_weight (some y) now_year = 0) ∧
    (now_year ≤ y → recency_weight (some y) now_year = 1) := by
  subst hd
  have hd0 : (0 : Int) ≤ max (now_year - y) 0 := le_max_right _ _
  simp only [recency_weight]
  by_cases h5 : max (now_year - y) 0 ≤ 5
  · rw [if_pos h5]
    have hc0 : (0 : ℚ) ≤ ((max (now_year - y) 0 : Int) : ℚ) := by exact_mod_cast hd0
    have hc5 : ((max (now_year - y) 0 : Int) : ℚ) ≤ 5 := by exact_mod_cast h5
    refine ⟨trivial, fun _ => rfl, fun h => absurd h (not_lt.mpr h5), ?_, ?_, ?_, ?_, ?_⟩
    · apply div_nonneg _ (by norm_num)
      linarith
    · rw [div_le_one (by norm_num)]
      linarith
    · intro h0; rw [h0]; norm_num
    · intro h5'; rw [h5']; norm_num
    · intro hfut
      have : max (now_year - y) 0 = 0 := max_eq_right (by omega)
      rw [this]; norm_num
  · rw [if_neg h5]
    refine ⟨trivial, fun h => absurd h h5, fun _ => rfl, le_refl 0, by norm_num, ?_, ?_, ?_⟩
    · intro h0; omega
    · intro h5'; omega
    · intro hfut
      exfalso
      have : max (now_year - y) 0 = 0 := max_eq_right (by omega)
      omega

/-- Witness for C7 at `year = 2020`, `reference = 2025` (so `d = 5`). -/
theorem C7_recency_weight_witness :
    recency_weight none 2025 = 0 ∧
    ((5 : Int) ≤ 5 → recency_weight (some 2020) 2025 = ((5 : ℚ) - ((5 : Int) : ℚ)) / 5) ∧
    ((5 : Int) < 5 → recency_weight (some 2020) 2025 = 0) ∧
    0 ≤ recency_weight (some 2020) 2025 ∧
    recency_weight (some 2020) 2025 ≤ 1 ∧
    ((5 : Int) = 0 → recency_weight (some 2020) 2025 = 1) ∧
    ((5 : Int) = 5 → recency_weight (some 2020) 2025 = 0) ∧
    ((2025 : Int) ≤ 2020 → recency_weight (some 2020) 2025 = 1) :=
  C7_recency_weight 2020 2025 5 (by decide)

lemma intercalate_singleton (s x : String) : String.intercalate s [x] = x := rfl

/-- C9: the scalarizer functions are total on arbitrarily nested input —
on every depth of nested arrays or objects they terminate and return the
worst-case values, the empty string and the empty sequence.  (Totality
itself is by construction: both are structurally recursive functions,
defined for every constructor of the value type, with no error case.) -/
theorem C9_scalarizer_total (n : Nat) :
    to_text (nestArr n) = "" ∧ to_list (nestArr n) = [] ∧
    to_text (nestObj n) = "" ∧ to_list (nestObj n) = [] := by
  induction n with
  | zero => exact ⟨rfl, rfl, rfl, rfl⟩
  | succ n ih =>
    obtain ⟨h1, h2, h3, h4⟩ := ih
    obtain ⟨xs, hxs⟩ : ∃ xs, nestArr n = .arr xs := by
      cases n <;> exact ⟨_, rfl⟩
    obtain ⟨kvs, hkvs⟩ : ∃ kvs, nestObj n = .obj kvs := by
      cases n <;> exact ⟨_, rfl⟩
    rw [hxs] at h1
    rw [hkvs] at h3
    refine ⟨?_, ?_, ?_, ?_⟩
    · show String.intercalate " " (textsOfList (.cons (nestArr n) .nil)) = ""
      rw [hxs]
      simp [textsOfList, h1, intercalate_singleton]
    · show to_list (.arr (.cons (nestArr n) .nil)) = []
      rw [hxs]
      simp [to_list, JsonList.toList, h1, pyStrip]
    · show String.intercalate " " (textsOfKVs (.cons "k" (nestObj n) .nil)) = ""
      rw [hkvs]
      simp [textsOfKVs, h3, intercalate_singleton]
    · show to_list (.obj (.cons "k" (nestObj n) .nil)) = []
      rw [hkvs]
      simp [to_list, JsonKVs.values, h3, pyStrip]

/-- C3 counterexample: on a non-object root, `build_records` returns the
empty sequence and raises nothing, while the claimed contract demands an
explicit `MalformedInput` failure. -/
theorem C3_counterexample :
    build_records (Json.str "x") = [] ∧
    normalize_claimed (Json.str "x") = Except.error "MalformedInput" :=
  ⟨rfl, rfl⟩

/-- C3 (amended): `build_records` returns the empty sequence — not an
error — when the root document is not object-shaped, and returns the
empty sequence when the graph key is present but holds an empty
collection. -/
theorem C3_build_records (data : Json) :
    ((∀ kvs, data ≠ Json.obj kvs) → build_records data = []) ∧
    (∀ kvs, data = Json.obj kvs → kvs.lookup "@graph" = some (Json.arr JsonList.nil) →
      build_records data = []) := by
  constructor
  · intro h
    cases data
    case obj kvs => exact absurd rfl (h kvs)
    all_goals rfl
  · rintro kvs rfl hlook
    simp [build_records, hlook, JsonList.isEmpty]

/-- Witness for C3 at a numeric root and at a present-but-empty graph. -/
theorem C3_build_records_witness :
    build_records (Json.num 7) = [] ∧
    build_records (Json.obj (.cons "@graph" (Json.arr .nil) .nil)) = [] :=
  ⟨(C3_build_records (Json.num 7)).1 (fun _ h => Json.noConfusion h),
   (C3_build_records _).2 (.cons "@graph" (Json.arr .nil) .nil) rfl rfl⟩

lemma le_foldl_max (x : Nat) (xs : List Nat) : x ≤ xs.foldl max x := by
  induction xs generalizing x with
  | nil => exact le_refl x
  | cons b bs ih => exact le_trans (le_max_left x b) (ih (max x b))

lemma mem_le_foldl_max (xs : List Nat) : ∀ x, ∀ a ∈ xs, a ≤ xs.foldl max x := by
  induction xs with
  | nil => intro x a ha; simp at ha
  | cons b bs ih =>
    intro x a ha
    rcases List.mem_cons.mp ha with rfl | ha2
    · exact le_trans (le_max_right x a) (le_foldl_max _ bs)
    · exact ih (max x b) a ha2

lemma foldl_max_mem (x : Nat) (xs : List Nat) : xs.foldl max x ∈ x :: xs := by
  induction xs generalizing x with
  | nil => simp
  | cons b bs ih =>
    simp only [List.foldl_cons]
    rcases List.mem_cons.mp (ih (max x b)) with hh | hh
    · rcases max_choice x b with hc | hc
      · rw [hh, hc]
        exact List.mem_cons_self _ _
      · rw [hh, hc]
        exact List.mem_cons_of_mem _ (List.mem_cons_self _ _)
    · exact List.mem_cons_of_mem _ (List.mem_cons_of_mem _ hh)

/-- C8: `extract_pages` returns the maximum of all the integers matched
by the pages pattern across the scalarized `extent` tokens, and is
absent exactly when no token contains the pattern; tokens
`["21cm", "x, 586p"]` yield 586 and `["viii, 23p", "30p"]` yield 30. -/
theorem C8_extract_pages :
    (∀ book m, extract_pages book = some m →
      m ∈ pagesFound book ∧ ∀ x ∈ pagesFound book, x ≤ m) ∧
    (∀ book, extract_pages book = none ↔ pagesFound book = []) ∧
    extract_pages (Json.obj (.cons "extent"
      (Json.arr (.cons (.str "21cm") (.cons (.str "x, 586p") .nil))) .nil)) = some 586 ∧
    extract_pages (Json.obj (.cons "extent"
      (Json.arr (.cons (.str "viii, 23p") (.cons (.str "30p") .nil))) .nil)) = some 30 := by
  refine ⟨?_, ?_, by decide, by decide⟩
  · intro book m h
    unfold extract_pages at h
    split at h
    · exact absurd h (by simp)
    · rename_i x xs heq
      injection h with hm
      rw [heq, ← hm]
      refine ⟨foldl_max_mem x xs, ?_⟩
      intro a ha
      rcases List.mem_cons.mp ha with rfl | ha2
      · exact le_foldl_max a xs
      · exact mem_le_foldl_max xs x a ha2
  · intro book
    cases h : pagesFound book <;> simp [extract_pages, h]

/-- Witness for C8: the max-and-membership facts instantiated at the
specification's first example. -/
theorem C8_extract_pages_witness :
    586 ∈ pagesFound (Json.obj (.cons "extent"
      (Json.arr (.cons (.str "21cm") (.cons (.str "x, 586p") .nil))) .nil)) ∧
    ∀ x ∈ pagesFound (Json.obj (.cons "extent"
      (Json.arr (.cons (.str "21cm") (.cons (.str "x, 586p") .nil))) .nil)), x ≤ 586 :=
  C8_extract_pages.1 _ 586 (by decide)

/-- C4 counterexample: a subject appearing twice and matching a picked
keyword is returned twice — the intersection slice is not
deduplicated. -/
theorem C4_counterexample :
    pick_related_keywords ["a", "a"] ["a"] 2 = ["a", "a"] ∧
    ¬ (pick_related_keywords ["a", "a"] ["a"] 2).Nodup := by
  refine ⟨by decide, ?_⟩
  intro h
  rw [show pick_related_keywords ["a", "a"] ["a"] 2 = ["a", "a"] from by decide] at h
  simp at h

lemma fillLoop_nodup : ∀ (subs result : List String) (n : Nat),
    result.Nodup → (fillLoop subs result n).Nodup := by
  intro subs
  induction subs with
  | nil => intro result n h; exact h
  | cons s rest ih =>
    intro result n h
    rw [fillLoop]
    by_cases hmem : s ∈ result
    · rw [if_pos hmem]
      split
      · exact h
      · exact ih result n h
    · rw [if_neg hmem]
      have h2 : (result ++ [s]).Nodup := by
        simp [List.nodup_append, h, hmem]
      split
      · exact h2
      · exact ih _ n h2

lemma fillLoop_extra (P : List String) : ∀ (subs result : List String) (n : Nat),
    (∀ x ∈ subs, x ∈ P → x ∈ result) →
    ∃ extra, fillLoop subs result n = result ++ extra ∧ ∀ x ∈ extra, x ∉ P := by
  intro subs
  induction subs with
  | nil =>
    intro result n _
    exact ⟨[], by simp [fillLoop], by simp⟩
  | cons s rest ih =>
    intro result n hsub
    rw [fillLoop]
    by_cases hmem : s ∈ result
    · rw [if_pos hmem]
      split
      · exact ⟨[], by simp, by simp⟩
      · exact ih result n (fun x hx hPx => hsub x (List.mem_cons_of_mem _ hx) hPx)
    · rw [if_neg hmem]
      have hsP : s ∉ P := fun hP => hmem (hsub s (List.mem_cons_self _ _) hP)
      split
      · exact ⟨[s], rfl, by simpa using hsP⟩
      · obtain ⟨extra, he, hex⟩ := ih (result ++ [s]) n
          (fun x hx hPx => List.mem_append_left _ (hsub x (List.mem_cons_of_mem _ hx) hPx))
        refine ⟨s :: extra, ?_, ?_⟩
        · rw [he, List.append_assoc]
          rfl
        · intro x hx
          rcases List.mem_cons.mp hx with rfl | hx2
          · exact hsP
          · exact hex x hx2

lemma pairwise_append_of_pickedFirst {P result extra : List String}
    (hres : ∀ a ∈ result, a ∈ P) (hext : ∀ x ∈ extra, x ∉ P) :
    (result ++ extra).Pairwise (fun a b => b ∈ P → a ∈ P) := by
  rw [List.pairwise_append]
  refine ⟨List.pairwise_of_forall_mem_list (fun a ha b _ _ => hres a ha), ?_, ?_⟩
  · exact List.pairwise_of_forall_mem_list (fun a ha b hb hbP => absurd hbP (hext b hb))
  · intro a ha b hb hbP
    exact absurd hbP (hext b hb)

/-- C4 (amended): `pick_related_keywords` returns empty for empty
subjects, never exceeds `top_n` entries, lists subjects present in the
picked set before the fill entries, matches the specification's example,
and contains no entry twice provided the input subjects are themselves
pairwise distinct (a subject duplicated in the input and present in the
picked keywords is returned in duplicate, as the counterexample
shows). -/
theorem C4_pick_related :
    (∀ picked n, pick_related_keywords [] picked n = []) ∧
    (∀ subjects picked n, (pick_related_keywords subjects picked n).length ≤ n) ∧
    (∀ subjects picked n, subjects.Nodup → (pick_related_keywords subjects picked n).Nodup) ∧
    (∀ subjects picked n, (pick_related_keywords subjects picked n).Pairwise
      (fun a b => b ∈ pickedSetOf picked → a ∈ pickedSetOf picked)) ∧
    pick_related_keywords ["도서관학", "역사", "저작권"] ["역사"] 2 = ["역사", "도서관학"] := by
  refine ⟨fun _ _ => rfl, ?_, ?_, ?_, by decide⟩
  · intro subjects picked n
    simp only [pick_related_keywords]
    split
    · simp
    · split <;> exact List.length_take_le _ _
  · intro subjects picked n hnd
    simp only [pick_related_keywords]
    split
    · simp
    · have hsubs : (subjects.filter (fun s => s ≠ "")).Nodup := hnd.filter _
      have hinter :
          ((subjects.filter (fun s => s ≠ "")).filter
            (fun s => decide (s ∈ pickedSetOf picked))).Nodup := hsubs.filter _
      have htake := List.Nodup.sublist (List.take_sublist n _) hinter
      split
      · exact List.Nodup.sublist (List.take_sublist n _) (fillLoop_nodup _ _ n htake)
      · exact List.Nodup.sublist (List.take_sublist n _) htake
  · intro subjects picked n
    simp only [pick_related_keywords]
    split
    · simp
    · have hresP : ∀ a ∈ ((subjects.filter (fun s => s ≠ "")).filter
          (fun s => decide (s ∈ pickedSetOf picked))).take n, a ∈ pickedSetOf picked := by
        intro a ha
        have := List.mem_filter.mp (List.mem_of_mem_take ha)
        simpa using this.2
      split
      · rename_i hlen
        have hlen2 : ((subjects.filter (fun s => s ≠ "")).filter
            (fun s => decide (s ∈ pickedSetOf picked))).length ≤ n := by
          by_contra hc
          push_neg at hc
          rw [List.length_take] at hlen
          omega
        rw [List.take_of_length_le hlen2] at hresP ⊢
        obtain ⟨extra, he, hex⟩ := fillLoop_extra (pickedSetOf picked)
          (subjects.filter (fun s => s ≠ ""))
          ((subjects.filter (fun s => s ≠ "")).filter
            (fun s => decide (s ∈ pickedSetOf picked))) n
          (fun x hx hPx => List.mem_filter.mpr ⟨hx, by simpa using hPx⟩)
        rw [he]
        exact List.Pairwise.sublist (List.take_sublist n _)
          (pairwise_append_of_pickedFirst hresP hex)
      · exact List.Pairwise.sublist (List.take_sublist n _)
          (List.pairwise_of_forall_mem_list (fun a ha _ _ _ => hresP a ha))

/-- Witness for C4: the no-duplicates conclusion instantiated at a
duplicate-free subject list. -/
theorem C4_pick_related_witness :
    (pick_related_keywords ["a", "b"] ["b"] 1).Nodup :=
  C4_pick_related.2.2.1 ["a", "b"] ["b"] 1 (by decide)

/-- C2 counterexample: the subjects corpus is all-empty while every
other facet has a nonempty vocabulary, yet the pipeline fails — the
fitting failure is not caught and ranking does not proceed with a
zeroed-out facet. -/
theorem C2_counterexample :
    vocabulary ["ab cd", "ef gh"] ≠ [] ∧
    vocabulary ["ij", "kl"] ≠ [] ∧
    vocabulary ["mn", "op qr"] ≠ [] ∧
    (∀ doc ∈ ["", ""], doc = "") ∧
    (buildIndexes ["", ""] ["ab cd", "ef gh"] ["ij", "kl"] ["mn", "op qr"]).isOk = false := by
  refine ⟨by decide, by decide, by decide, by decide, rfl⟩

lemma vocabulary_all_empty (docs : List String) (h : ∀ doc ∈ docs, doc = "") :
    vocabulary docs = [] := by
  have hflat : docs.flatMap sklearnTokens = [] := by
    induction docs with
    | nil => rfl
    | cons d ds ih =>
      rw [List.flatMap_cons, h d (List.mem_cons_self _ _)]
      rw [show sklearnTokens "" = [] from rfl, List.nil_append]
      exact ih (fun x hx => h x (List.mem_cons_of_mem _ hx))
  simp [vocabulary, hflat]

/-- C2 (amended): the per-facet fit failures at lines 244–247 are not
caught: the pipeline succeeds exactly when every one of the four facet
corpora yields a nonempty vocabulary, so an all-empty facet aborts the
whole ranking even when other facets are nonempty; a corpus of empty
strings always yields an empty vocabulary. -/
theorem C2_fit_uncaught :
    (∀ s d a p : List String,
      (buildIndexes s d a p).isOk = true ↔
        (vocabulary s ≠ [] ∧ vocabulary d ≠ [] ∧ vocabulary a ≠ [] ∧ vocabulary p ≠ [])) ∧
    (∀ docs : List String, (∀ doc ∈ docs, doc = "") → vocabulary docs = []) := by
  refine ⟨?_, vocabulary_all_empty⟩
  intro s d a p
  simp only [buildIndexes, fit_transform]
  by_cases hs : (vocabulary s).isEmpty <;>
    by_cases hd : (vocabulary d).isEmpty <;>
    by_cases ha : (vocabulary a).isEmpty <;>
    by_cases hp : (vocabulary p).isEmpty <;>
    simp_all [List.isEmpty_iff, Except.isOk, Except.toBool]

/-- Witness for C2: the success direction at concrete nonempty corpora,
and the empty-vocabulary fact at an all-empty corpus. -/
theorem C2_fit_uncaught_witness :
    ((buildIndexes ["ab"] ["cd"] ["ef"] ["gh"]).isOk = true) ∧
    vocabulary ["", ""] = [] :=
  ⟨(C2_fit_uncaught.1 ["ab"] ["cd"] ["ef"] ["gh"]).mpr
    ⟨by decide, by decide, by decide, by decide⟩,
   C2_fit_uncaught.2 ["", ""] (by decide)⟩

instance instTotalArgsortLE (f : List ℚ) : IsTotal Nat (argsortLE f) := by
  constructor
  intro i j
  rcases lt_trichotomy (scoreAt f i) (scoreAt f j) with h | h | h
  · exact Or.inl (Or.inl h)
  · rcases le_total i j with hij | hij
    · exact Or.inl (Or.inr ⟨h, hij⟩)
    · exact Or.inr (Or.inr ⟨h.symm, hij⟩)
  · exact Or.inr (Or.inl h)

instance instTransArgsortLE (f : List ℚ) : IsTrans Nat (argsortLE f) := by
  constructor
  intro a b c hab hbc
  rcases hab with hab | ⟨hab, hab2⟩ <;> rcases hbc with hbc | ⟨hbc, hbc2⟩
  · exact Or.inl (lt_trans hab hbc)
  · exact Or.inl (hbc ▸ hab)
  · exact Or.inl (hab ▸ hbc)
  · exact Or.inr ⟨hab.trans hbc, le_trans hab2 hbc2⟩

/-- C1 counterexample: with two equal final scores, the ranking order is
`[1, 0]` — the larger original index first — not `[0, 1]` as the
ascending tie-break would require. -/
theorem C1_counterexample :
    scoreAt [(1 : ℚ), 1] 0 = scoreAt [(1 : ℚ), 1] 1 ∧
    order [(1 : ℚ), 1] = [1, 0] ∧
    order [(1 : ℚ), 1] ≠ [0, 1] := by
  refine ⟨rfl, by decide, by decide⟩

/-- C1 (amended): in both recommendation modes the result indices are
sorted by final score descending (non-strictly) and the full ranking
order is a permutation of all candidate indices — and this holds for
every index order satisfying the `argsort` contract, whatever it does
with ties.  The ascending tie-break of the original claim does not hold:
the order of equal scores is implementation-defined (numpy's default
sort is unstable above its small-sort cutoff, and below the cutoff,
where it is a stable insertion sort, the `[::-1]` reversal ranks the
larger original index first, as the counterexample shows).  The
executable small-array model satisfies the contract, so the embedded
pipeline's `order`, `recordRecs` and `keywordOrder` inherit the
descending-sort and permutation properties. -/
theorem C1_order_sorted :
    (∀ f : List ℚ, IsNpArgsort f (argsortSmall f)) ∧
    (∀ (f : List ℚ) (p : List Nat), IsNpArgsort f p →
      p.reverse.Pairwise (fun a b => scoreAt f b ≤ scoreAt f a) ∧
      p.reverse.Perm (List.range f.length) ∧
      (∀ idx top_n, ((p.reverse.filter (fun i => i ≠ idx)).take top_n).Pairwise
        (fun a b => scoreAt f b ≤ scoreAt f a)) ∧
      (∀ top_n, (p.reverse.take top_n).Pairwise
        (fun a b => scoreAt f b ≤ scoreAt f a))) ∧
    (∀ f : List ℚ,
      (order f).Pairwise (fun a b => scoreAt f b ≤ scoreAt f a) ∧
      (order f).Perm (List.range f.length)) ∧
    (∀ (f : List ℚ) (idx top_n : Nat), (recordRecs f idx top_n).Pairwise
      (fun a b => scoreAt f b ≤ scoreAt f a)) ∧
    (∀ (f : List ℚ) (top_n : Nat), (keywordOrder f top_n).Pairwise
      (fun a b => scoreAt f b ≤ scoreAt f a)) := by
  have hsmall : ∀ f : List ℚ, IsNpArgsort f (argsortSmall f) := by
    intro f
    refine ⟨List.perm_insertionSort _ _, ?_⟩
    have hs : (argsortSmall f).Pairwise (argsortLE f) :=
      List.sorted_insertionSort (argsortLE f) (List.range f.length)
    refine hs.imp ?_
    rintro a b (h | ⟨h, _⟩)
    · exact le_of_lt h
    · exact le_of_eq h
  have habs : ∀ (f : List ℚ) (p : List Nat), IsNpArgsort f p →
      p.reverse.Pairwise (fun a b => scoreAt f b ≤ scoreAt f a) ∧
      p.reverse.Perm (List.range f.length) ∧
      (∀ idx top_n, ((p.reverse.filter (fun i => i ≠ idx)).take top_n).Pairwise
        (fun a b => scoreAt f b ≤ scoreAt f a)) ∧
      (∀ top_n, (p.reverse.take top_n).Pairwise
        (fun a b => scoreAt f b ≤ scoreAt f a)) := by
    intro f p hp
    have hpair : p.reverse.Pairwise (fun a b => scoreAt f b ≤ scoreAt f a) :=
      List.pairwise_reverse.mpr hp.2
    refine ⟨hpair, (List.reverse_perm p).trans hp.1, ?_, ?_⟩
    · intro idx top_n
      exact List.Pairwise.sublist
        ((List.take_sublist _ _).trans (List.filter_sublist _)) hpair
    · intro top_n
      exact List.Pairwise.sublist (List.take_sublist _ _) hpair
  refine ⟨hsmall, habs, ?_, ?_, ?_⟩
  · intro f
    obtain ⟨h1, h2, _, _⟩ := habs f (argsortSmall f) (hsmall f)
    exact ⟨h1, h2⟩
  · intro f idx top_n
    exact (habs f (argsortSmall f) (hsmall f)).2.2.1 idx top_n
  · intro f top_n
    exact (habs f (argsortSmall f) (hsmall f)).2.2.2 top_n

/-- Witness for C1: the contract hypothesis is discharged at the
two-element score vector of the counterexample, where the small-array
model is the program. -/
theorem C1_order_sorted_witness :
    IsNpArgsort [(1 : ℚ), 1] (argsortSmall [(1 : ℚ), 1]) ∧
    (((argsortSmall [(1 : ℚ), 1]).reverse.filter (fun i => i ≠ 0)).take 5).Pairwise
      (fun a b => scoreAt [(1 : ℚ), 1] b ≤ scoreAt [(1 : ℚ), 1] a) :=
  ⟨C1_order_sorted.1 [(1 : ℚ), 1],
   (C1_order_sorted.2.1 [(1 : ℚ), 1] (argsortSmall [(1 : ℚ), 1])
     (C1_order_sorted.1 [(1 : ℚ), 1])).2.2.1 0 5⟩

/-- C6: record-to-record results never contain the query record's own
index, are truncated to at most `top_n` entries, and when at most
`top_n` candidates remain after self-exclusion every remaining candidate
is returned. -/
theorem C6_self_exclusion (f : List ℚ) (idx top_n : Nat)
    (h1 : 1 ≤ f.length) (h2 : idx < f.length) :
    idx ∉ recordRecs f idx top_n ∧
    (recordRecs f idx top_n).length ≤ top_n ∧
    (((order f).filter (fun i => i ≠ idx)).length ≤ top_n →
      recordRecs f idx top_n = (order f).filter (fun i => i ≠ idx)) := by
  refine ⟨?_, List.length_take_le _ _, fun h => List.take_of_length_le h⟩
  intro hmem
  have hmem2 := List.mem_filter.mp (List.mem_of_mem_take hmem)
  simp at hmem2

/-- Witness for C6 on a two-record set with the query at index 0. -/
theorem C6_self_exclusion_witness :
    0 ∉ recordRecs [(1 : ℚ), 2] 0 5 ∧
    (recordRecs [(1 : ℚ), 2] 0 5).length ≤ 5 ∧
    (((order [(1 : ℚ), 2]).filter (fun i => i ≠ 0)).length ≤ 5 →
      recordRecs [(1 : ℚ), 2] 0 5 = (order [(1 : ℚ), 2]).filter (fun i => i ≠ 0)) :=
  C6_self_exclusion [(1 : ℚ), 2] 0 5 (by decide) (by decide)

/-- C5: the facet weights actually used in scoring always sum to 1, an
all-zero profile normalizes to exactly the default profile, and the
ranking output of both modes for an all-zero profile is identical to the
output for the default profile on the same inputs. -/
theorem C5_weight_renormalization :
    (∀ w : Weights,
      (normalizeWeights w).subj + (normalizeWeights w).desc +
        (normalizeWeights w).auth + (normalizeWeights w).pub = 1) ∧
    normalizeWeights ⟨0, 0, 0, 0⟩ = normalizeWeights defaultWeights ∧
    (∀ w_recency ss sd sa sp rec_vec idx top_n,
      rankRecord ⟨0, 0, 0, 0⟩ w_recency ss sd sa sp rec_vec idx top_n =
        rankRecord defaultWeights w_recency ss sd sa sp rec_vec idx top_n) ∧
    (∀ w_recency ss sd sa sp rec_vec top_n,
      rankKeyword ⟨0, 0, 0, 0⟩ w_recency ss sd sa sp rec_vec top_n =
        rankKeyword defaultWeights w_recency ss sd sa sp rec_vec top_n) := by
  have hnw : normalizeWeights ⟨0, 0, 0, 0⟩ = normalizeWeights defaultWeights := by
    norm_num [normalizeWeights, defaultWeights]
  refine ⟨?_, hnw, ?_, ?_⟩
  · intro w
    simp only [normalizeWeights]
    by_cases hs : w.subj + w.desc + w.auth + w.pub = 0
    · rw [if_pos hs, if_pos hs]
      norm_num [defaultWeights]
    · rw [if_neg hs, if_neg hs]
      rw [div_add_div_same, div_add_div_same, div_add_div_same, div_self hs]
  · intro w_recency ss sd sa sp rec_vec idx top_n
    unfold rankRecord
    rw [hnw]
  · intro w_recency ss sd sa sp rec_vec top_n
    unfold rankKeyword
    rw [hnw]
